import Mathlib

/-!
Verification development for the FaceCommand detection core
(`facecommand.py`): a shallow embedding of the macro instruction
language, the gesture detector with running calibration, the
per-gesture smoother and trigger state machine, the chain matcher,
and the morse pattern matcher, together with theorems about them.

Conventions of the embedding:
* Python floats are modelled as exact rationals (`ℚ`); timestamps are
  milliseconds as in the source (`time.time()*1000`).
* Python strings are modelled as `List Char`, so that `split`,
  `strip`, `rsplit` and friends can be reasoned about by induction.
* Stateful code becomes explicit state passing: each per-frame handler
  is a function from a state and a frame input to a new state plus the
  list of action requests it dispatches that frame.  A dispatched
  request (`threading.Thread(target=...).start()` in the source) is
  recorded as an event; the OS input-synthesis boundary that consumes
  the events is external.
-/

namespace FaceCommand

/-- Python string, modelled as a list of characters. -/
abbrev Str := List Char

/-- Python `str.split(sep)` for a one-character separator: splitting the
empty string yields `[""]`, and separators delimit possibly empty parts. -/
def pySplit (sep : Char) : Str → List Str
  | [] => [[]]
  | c :: rest =>
    if c = sep then [] :: pySplit sep rest
    else
      match pySplit sep rest with
      | [] => [[c]]
      | r :: rs => (c :: r) :: rs

/-- Remove trailing whitespace (the right half of Python `str.strip()`). -/
def rstripWS (xs : Str) : Str :=
  (xs.reverse.dropWhile Char.isWhitespace).reverse

/-- Python `str.strip()` with no arguments: drop whitespace from both ends. -/
def pyStrip (xs : Str) : Str :=
  (rstripWS xs).dropWhile Char.isWhitespace

/-- Digit run to a number: `some` iff the string is nonempty and all digits. -/
def digitsToNat (cs : Str) : Option Nat :=
  if cs = [] then none
  else
    cs.foldl
      (fun acc c =>
        acc.bind fun n =>
          if c.isDigit then some (n * 10 + (c.toNat - '0'.toNat)) else none)
      (some 0)

/-- Python `int(s)`: strips whitespace, accepts an optional sign followed by
digits, and fails (`ValueError`, modelled as `none`) otherwise. -/
def pyInt (s : Str) : Option Int :=
  match pyStrip s with
  | '-' :: rest => (digitsToNat rest).map fun n => -(n : Int)
  | '+' :: rest => (digitsToNat rest).map fun n => (n : Int)
  | rest => (digitsToNat rest).map fun n => (n : Int)

/-- Python `rest.rsplit(':', 1)`: `none` when no colon occurs (one piece),
otherwise the pieces before and after the last colon. -/
def rsplitColon (xs : Str) : Option (Str × Str) :=
  let revAfter := xs.reverse.takeWhile fun c => decide (c ≠ ':')
  match xs.reverse.dropWhile (fun c => decide (c ≠ ':')) with
  | [] => none
  | _ :: revBefore => some (revBefore.reverse, revAfter.reverse)

/-- A parsed macro step, mirroring the tuples built by `parse_macro`:
`('key', bind)`, `('hold', bind, ms)`, `('mouse', action)`, `('delay', ms)`. -/
inductive MacroStep where
  | key (bind : Str)
  | hold (bind : Str) (ms : Int)
  | mouse (action : Str)
  | delay (ms : Int)
deriving DecidableEq

/-- One `part` of the semicolon-separated macro string, parsed as in the
body of the `for part in macro_str.split(';')` loop of `parse_macro`:
empty parts, steps with unparseable numeric fields and unknown prefixes
are dropped ([] here), `hold:` without a duration falls back to a key step. -/
def parseMacroPart (part0 : Str) : List MacroStep :=
  let part := pyStrip part0
  if part = [] then []
  else if ("key:".toList).isPrefixOf part then
    [.key (pyStrip (part.drop 4))]
  else if ("hold:".toList).isPrefixOf part then
    let rest := part.drop 5
    match rsplitColon rest with
    | some (b, d) =>
      match pyInt d with
      | some n => [.hold (pyStrip b) n]
      | none => []
    | none => [.key (pyStrip rest)]
  else if ("mouse:".toList).isPrefixOf part then
    [.mouse (pyStrip (part.drop 6))]
  else if ("delay:".toList).isPrefixOf part then
    match pyInt (part.drop 6) with
    | some n => [.delay n]
    | none => []
  else []

/-- `parse_macro`: split on `';'` and parse each part, concatenating. -/
def parseMacro (s : Str) : List MacroStep :=
  ((pySplit ';' s).map parseMacroPart).flatten

/-- Low-level timed event emitted while executing a macro.  Key press and
release are recorded at binding granularity; resolution of the binding to
virtual-key codes (`parse_key`, `VkKeyScanW`) belongs to the external
input-synthesis boundary. -/
inductive MacroEvent where
  | keyDown (bind : Str)
  | keyUp (bind : Str)
  | mouseEv (action : Str)
  | sleepMs (ms : ℚ)
deriving DecidableEq

/-- Whether a step's type tag is `'mouse'` or `'key'` (the types that get an
implicit inter-step pause in `execute_macro`). -/
def stepIsKM : MacroStep → Bool
  | .key _ => true
  | .mouse _ => true
  | _ => false

/-- Events emitted for one macro step: `execute_key_press` presses, sleeps
50 ms, releases; a hold step presses, sleeps its duration, releases;
a mouse step emits one mouse action; a delay sleeps. -/
def stepEvents : MacroStep → List MacroEvent
  | .key b => [.keyDown b, .sleepMs 50, .keyUp b]
  | .hold b ms => [.keyDown b, .sleepMs ms, .keyUp b]
  | .mouse a => [.mouseEv a]
  | .delay ms => [.sleepMs ms]

/-- The step loop of `execute_macro`: `prevKM` says whether the previous
step's type was `'mouse'` or `'key'` (initially `False`/`None`); a 50 ms
pause is inserted before a key/mouse step that follows a key/mouse step. -/
def execMacroSteps : Bool → List MacroStep → List MacroEvent
  | _, [] => []
  | prevKM, s :: rest =>
    (if prevKM && stepIsKM s then [MacroEvent.sleepMs 50] else [])
      ++ stepEvents s ++ execMacroSteps (stepIsKM s) rest

/-- `execute_macro`: parse then run the step loop (empty string is a no-op). -/
def executeMacro (s : Str) : List MacroEvent :=
  if s = [] then [] else execMacroSteps false (parseMacro s)

/-- The pause the spec prescribes between two adjacent steps: 50 ms exactly
when both are key or mouse steps.  Stated from the spec's words, for
comparison with `execMacroSteps`. -/
def specPause (a b : MacroStep) : List MacroEvent :=
  if stepIsKM a && stepIsKM b then [MacroEvent.sleepMs 50] else []

/-- Spec-side macro trace: each step's events with `specPause` between
adjacent steps.  Stated from the spec's words, for comparison with
`execMacroSteps`. -/
def specMacroTrace : List MacroStep → List MacroEvent
  | [] => []
  | [s] => stepEvents s
  | a :: b :: rest => stepEvents a ++ specPause a b ++ specMacroTrace (b :: rest)

/-! ## Gesture detector (`GestureDetector`) -/

/-- The fixed catalog of 12 gesture ids (`GESTURES` in the source). -/
inductive GId where
  | eyebrow_raise
  | eyebrow_raise_left
  | eyebrow_raise_right
  | brow_furrow
  | blink
  | wink_left
  | wink_right
  | smile
  | mouth_open
  | pucker
  | smirk_left
  | smirk_right
deriving DecidableEq

/-- The gesture list in `GESTURES` order (the iteration order of every
per-gesture loop in `_of`). -/
def gestureList : List GId :=
  [.eyebrow_raise, .eyebrow_raise_left, .eyebrow_raise_right, .brow_furrow,
   .blink, .wink_left, .wink_right, .smile, .mouth_open, .pucker,
   .smirk_left, .smirk_right]

/-- The 13 baseline-tracked scalar features of one frame (the keys
accumulated into `cal_s` in `GestureDetector.compute`). -/
structure Feats where
  br : ℚ
  lbr : ℚ
  rbr : ℚ
  sr : ℚ
  mo : ℚ
  pitch : ℚ
  pucker_w : ℚ
  mouth_asym : ℚ
  ul_nose : ℚ
  ll_nose : ℚ
  corner_nose : ℚ
  brow_gap : ℚ
  brow_eye_gap : ℚ
deriving DecidableEq

/-- All-zero feature record (the `s.get(k,0)` default of the accumulator). -/
def zeroFeats : Feats := ⟨0, 0, 0, 0, 0, 0, 0, 0, 0, 0, 0, 0, 0⟩

/-- Componentwise sum (one accumulation step of the calibration loop). -/
def addFeats (a b : Feats) : Feats :=
  ⟨a.br + b.br, a.lbr + b.lbr, a.rbr + b.rbr, a.sr + b.sr, a.mo + b.mo,
   a.pitch + b.pitch, a.pucker_w + b.pucker_w, a.mouth_asym + b.mouth_asym,
   a.ul_nose + b.ul_nose, a.ll_nose + b.ll_nose, a.corner_nose + b.corner_nose,
   a.brow_gap + b.brow_gap, a.brow_eye_gap + b.brow_eye_gap⟩

/-- Componentwise division by a count (`{k: v/CAL_N for k,v in s.items()}`). -/
def divFeats (a : Feats) (n : ℚ) : Feats :=
  ⟨a.br / n, a.lbr / n, a.rbr / n, a.sr / n, a.mo / n, a.pitch / n,
   a.pucker_w / n, a.mouth_asym / n, a.ul_nose / n, a.ll_nose / n,
   a.corner_nose / n, a.brow_gap / n, a.brow_eye_gap / n⟩

/-- One landmark frame as seen by the scoring code, after the purely
geometric feature extraction of `compute` (lines computing distances,
eye-aspect ratios and ratios from the landmark set).  `le`/`re` are the
(gaze-compensated, when applicable) eye-aspect ratios and `logRatio` is
`log((le+0.001)/(re+0.001))`; they involve `sqrt`/`log` and are therefore
taken as frame inputs of the scoring state machine. -/
structure Frame where
  feats : Feats
  le : ℚ
  re : ℚ
  logRatio : ℚ
deriving DecidableEq

/-- Number of calibration frames (`CAL_N = 45`). -/
def CAL_N : ℕ := 45

/-- The persistent state of `GestureDetector`: frame counter `cal_n`,
running sums `cal_s`, and baseline `bl` (zero until finalized, matching
the empty dict that is never read before calibration completes). -/
structure DetState where
  cal_n : ℕ
  cal_s : Feats
  bl : Feats
deriving DecidableEq

/-- `GestureDetector.reset` / freshly constructed detector. -/
def DetState.reset : DetState := ⟨0, zeroFeats, zeroFeats⟩

/-- The `calibrated` property: `cal_n >= CAL_N`. -/
def DetState.calibrated (st : DetState) : Bool := decide (CAL_N ≤ st.cal_n)

/-- The 12 raw gesture scores returned by one call to `compute`. -/
structure Raw where
  blink : ℚ
  wink_left : ℚ
  wink_right : ℚ
  eyebrow_raise : ℚ
  eyebrow_raise_left : ℚ
  eyebrow_raise_right : ℚ
  smile : ℚ
  mouth_open : ℚ
  pucker : ℚ
  smirk_left : ℚ
  smirk_right : ℚ
  brow_furrow : ℚ
deriving DecidableEq

/-- All-zero raw score record (used as an out-of-range default when
indexing per-frame outputs). -/
def rawZero : Raw := ⟨0, 0, 0, 0, 0, 0, 0, 0, 0, 0, 0, 0⟩

/-- Score clamp `max(0, min(100, x))` used throughout `compute`. -/
def clampScore (x : ℚ) : ℚ := max 0 (min 100 x)

/-- Look a raw score up by gesture id (the `raw` dict of `compute`). -/
def Raw.get (r : Raw) : GId → ℚ
  | .eyebrow_raise => r.eyebrow_raise
  | .eyebrow_raise_left => r.eyebrow_raise_left
  | .eyebrow_raise_right => r.eyebrow_raise_right
  | .brow_furrow => r.brow_furrow
  | .blink => r.blink
  | .wink_left => r.wink_left
  | .wink_right => r.wink_right
  | .smile => r.smile
  | .mouth_open => r.mouth_open
  | .pucker => r.pucker
  | .smirk_left => r.smirk_left
  | .smirk_right => r.smirk_right

/-- The calibration-accumulation block of `compute`: while `cal_n < CAL_N`
add this frame's features to the running sums and bump the counter,
finalizing the baseline `bl = cal_s/CAL_N` exactly on the 45th frame. -/
def detUpdate (st : DetState) (f : Frame) : DetState :=
  if st.cal_n < CAL_N then
    ⟨st.cal_n + 1, addFeats st.cal_s f.feats,
     if st.cal_n + 1 = CAL_N then divFeats (addFeats st.cal_s f.feats) (CAL_N : ℚ)
     else st.bl⟩
  else st

/-- The scores computed before the calibration gate: blink from the mean
eye-aspect ratio against fixed physiological thresholds, and the two winks
from the log-ratio of the per-eye aspect ratios.  All other entries are
the zeros the uncalibrated branch reports. -/
def rawBase (sens : GId → ℚ) (f : Frame) : Raw :=
  { rawZero with
    blink := clampScore ((1 - (((f.le + f.re) / 2) - 0.05) / (0.30 / sens GId.blink)) * 100)
    wink_left := clampScore (-f.logRatio / (0.6 / sens GId.wink_left) * 100)
    wink_right := clampScore (f.logRatio / (0.6 / sens GId.wink_right) * 100) }

/-- The `if self.calibrated:` branch of `compute`: the nine delta-based
scores from baseline deviations, with pitch compensation, the both-brows
disambiguation, smile/mouth-open/pucker cross-suppression and the
brow-furrow suppressions, layered over the blink/wink scores. -/
def detScoresCal (bl : Feats) (tilt_comp : ℚ) (sens : GId → ℚ) (f : Frame)
    (base : Raw) : Raw :=
  let pitch_dev := f.feats.pitch - bl.pitch
  let pitch_comp := pitch_dev * -(tilt_comp / 100)
  let raw_left := clampScore ((bl.lbr - (f.feats.lbr - pitch_comp)) / (0.03 / sens GId.eyebrow_raise_left) * 100)
  let raw_right := clampScore ((bl.rbr - (f.feats.rbr - pitch_comp)) / (0.03 / sens GId.eyebrow_raise_right) * 100)
  let bothRaised := 85 ≤ raw_left ∧ 85 ≤ raw_right
  let eyebrow_raise :=
    if bothRaised then
      clampScore ((bl.br - (f.feats.br - pitch_comp)) / (0.03 / sens GId.eyebrow_raise) * 100)
    else 0
  let eyebrow_raise_left := if bothRaised then 0 else raw_left
  let eyebrow_raise_right := if bothRaised then 0 else raw_right
  let s_sm := sens GId.smile
  let corner_rise := (bl.corner_nose - f.feats.corner_nose) / (0.04 / s_sm)
  let upper_rise := (bl.ul_nose - f.feats.ul_nose) / (0.03 / s_sm)
  let width_inc := (f.feats.sr - bl.sr) / (0.10 / s_sm)
  let smile := clampScore ((corner_rise * 0.40 + upper_rise * 0.25 + width_inc * 0.35) * 100)
  let lower_drop := (f.feats.ll_nose - bl.ll_nose) / (0.06 / sens GId.mouth_open)
  let mouth_open0 := clampScore (lower_drop * 100)
  let mouth_open := if 50 < smile then max 0 (mouth_open0 - smile * 0.3) else mouth_open0
  let w_shrink := (bl.pucker_w - f.feats.pucker_w) / (0.05 / sens GId.pucker)
  let raw_pucker0 := clampScore (w_shrink * 100)
  let raw_pucker := if 40 < smile ∨ 40 < mouth_open then raw_pucker0 * 0.2 else raw_pucker0
  let pucker := clampScore raw_pucker
  let asym_dev := f.feats.mouth_asym - bl.mouth_asym
  let smirk_left := clampScore (asym_dev / (0.025 / sens GId.smirk_left) * 100)
  let smirk_right := clampScore (-asym_dev / (0.025 / sens GId.smirk_right) * 100)
  let s_bf := sens GId.brow_furrow
  let compensated_brow_eye_gap := f.feats.brow_eye_gap - pitch_comp * 0.5
  let brow_drop := (compensated_brow_eye_gap - bl.brow_eye_gap) / (0.015 / s_bf)
  let gap_shrink := (bl.brow_gap - f.feats.brow_gap) / (0.03 / s_bf)
  let raw_furrow0 := clampScore ((brow_drop * 0.55 + gap_shrink * 0.45) * 100)
  let raw_furrow1 :=
    if 30 < eyebrow_raise ∨ 30 < raw_left ∨ 30 < raw_right then raw_furrow0 * 0.1
    else raw_furrow0
  let raw_furrow2 :=
    if 30 < mouth_open then raw_furrow1 * max 0 (1 - mouth_open / 80) else raw_furrow1
  let brow_furrow := clampScore raw_furrow2
  { base with
    eyebrow_raise := eyebrow_raise
    eyebrow_raise_left := eyebrow_raise_left
    eyebrow_raise_right := eyebrow_raise_right
    smile := smile
    mouth_open := mouth_open
    pucker := pucker
    smirk_left := smirk_left
    smirk_right := smirk_right
    brow_furrow := brow_furrow }

/-- `GestureDetector.compute`, from the feature values onwards: blink/wink
scores from fixed physiological thresholds, calibration accumulation while
`cal_n < CAL_N` with baseline finalization on the 45th frame, and the nine
delta-based scores (zero until calibrated).  `sens` is the per-gesture
sensitivity-multiplier dict (`sens.get(gid, 1.0)` totalized). -/
def detCompute (st : DetState) (tilt_comp : ℚ) (sens : GId → ℚ) (f : Frame) :
    DetState × Raw :=
  let st' := detUpdate st f
  (st',
   if st'.calibrated then detScoresCal st'.bl tilt_comp sens f (rawBase sens f)
   else rawBase sens f)

/-- Feed a list of frames through the detector, collecting each frame's
raw scores in order. -/
def runDet (tilt_comp : ℚ) (sens : GId → ℚ) :
    DetState → List Frame → DetState × List Raw
  | st, [] => (st, [])
  | st, f :: fs =>
    let p := detCompute st tilt_comp sens f
    let q := runDet tilt_comp sens p.1 fs
    (q.1, p.2 :: q.2)

/-- Componentwise feature sums of a list of frames, accumulated in the
same left-to-right order as the calibration loop. -/
def sumFeats (fs : List Frame) : Feats :=
  fs.foldl (fun acc f => addFeats acc f.feats) zeroFeats

/-- All nine delta-based scores (every gesture except blink and the two
winks) are zero in a raw score record. -/
def deltaZero (r : Raw) : Prop :=
  r.eyebrow_raise = 0 ∧ r.eyebrow_raise_left = 0 ∧ r.eyebrow_raise_right = 0 ∧
  r.smile = 0 ∧ r.mouth_open = 0 ∧ r.pucker = 0 ∧ r.smirk_left = 0 ∧
  r.smirk_right = 0 ∧ r.brow_furrow = 0

/-! ## Smoother -/

/-- The EMA coefficient of `_of`: `alpha = 1-(smoothing/15.0)*0.85`, with
`smoothing` the 1–15 slider value. -/
def alphaOf (setting : ℚ) : ℚ := 1 - (setting / 15) * 0.85

/-- One smoothing update: `sm = sm*(1-alpha) + val*alpha`. -/
def emaStep (alpha prev val : ℚ) : ℚ := prev * (1 - alpha) + val * alpha

/-- Iterate the smoother `n` times on a constant raw input `S`. -/
def emaIter (alpha S x0 : ℚ) : ℕ → ℚ
  | 0 => x0
  | n + 1 => emaStep alpha (emaIter alpha S x0 n) S

/-! ## Trigger state machine (per gesture) -/

/-- Action kinds (`ACTION_TYPES` values). -/
inductive Act where
  | noAction
  | key
  | macroSeq
  | the_rock
  | left_click
  | right_click
  | double_click
  | middle_click
  | scroll_up
  | scroll_down
  | drag_toggle
  | command
deriving DecidableEq

/-- `_HOLDABLE_ACTIONS`: actions that support a sustained hold. -/
def holdable : Act → Bool
  | .key => true
  | .left_click => true
  | .right_click => true
  | .middle_click => true
  | _ => false

/-- `_REPEATABLE_ACTIONS`: actions refired every 150 ms during hold mode. -/
def repeatable : Act → Bool
  | .scroll_up => true
  | .scroll_down => true
  | .double_click => true
  | .macroSeq => true
  | _ => false

/-- Trigger modes (`TRIGGER_MODES` values). -/
inductive TMode where
  | single
  | hold
  | toggle
deriving DecidableEq

/-- Per-gesture configuration read from the gesture card. -/
structure GCfg where
  mode : TMode
  act : Act
deriving DecidableEq

/-- Per-gesture runtime state owned by the session: armed flag `ta`,
dwell-start `hs` (0 = unset), last fire time `lt`, `hold_active`,
`toggle_state`, and last repeat-fire time `repeat_lt`. -/
structure GState where
  ta : Bool
  hs : ℚ
  lt : ℚ
  holdActive : Bool
  toggleState : Bool
  repeatLt : ℚ
deriving DecidableEq

/-- Initial per-gesture state (`_start` zeroes all of these). -/
def GState.init : GState := ⟨false, 0, 0, false, false, 0⟩

/-- Per-frame input to one gesture's trigger evaluation: the card's
enabled flag and min threshold, the global cooldown and hold-time slider
values, the gesture's smoothed score, and the frame timestamp (ms). -/
structure FrameIn where
  enabled : Bool
  val : ℚ
  th : ℚ
  cd : ℚ
  ht : ℚ
  now : ℚ
deriving DecidableEq

/-- Action requests dispatched by the trigger layer: a one-shot
`execute_action`, an `execute_hold_start`, or an `execute_hold_stop`. -/
inductive TEv where
  | fire
  | holdStart
  | holdStop
deriving DecidableEq

/-- Events emitted by `execute_hold_start`: it presses something only for
holdable actions (key down / mouse down), otherwise does nothing. -/
def holdStartEvs (a : Act) : List TEv :=
  if holdable a then [TEv.holdStart] else []

/-- Events emitted by `execute_hold_stop`: it releases something only for
holdable actions (key up / mouse up), otherwise does nothing. -/
def holdStopEvs (a : Act) : List TEv :=
  if holdable a then [TEv.holdStop] else []

/-- `REPEAT_INTERVAL` (ms between repeat fires in hold mode). -/
def REPEAT_INTERVAL : ℚ := 150

/-- One gesture's slice of the per-frame trigger loop of `_of`
(the `for g in GESTURES` body): disabled cards release a live hold and
are otherwise skipped; above threshold the dwell timer runs and the
single/hold/toggle transition fires; below threshold the dwell timer and
armed flag reset and a live hold is released. -/
def gestureStep (cfg : GCfg) (st : GState) (fin : FrameIn) : GState × List TEv :=
  if fin.enabled = false then
    if st.holdActive then ({ st with holdActive := false }, holdStopEvs cfg.act)
    else (st, [])
  else if fin.th ≤ fin.val then
    let hs' := if st.hs = 0 then fin.now else st.hs
    let held := fin.now - hs'
    let st1 := { st with hs := hs' }
    match cfg.mode with
    | .single =>
      if fin.ht ≤ held ∧ st.ta = false ∧ fin.cd < fin.now - st.lt then
        ({ st1 with ta := true, lt := fin.now }, [TEv.fire])
      else (st1, [])
    | .hold =>
      if fin.ht ≤ held ∧ st.holdActive = false then
        if holdable cfg.act then
          ({ st1 with holdActive := true, ta := true }, holdStartEvs cfg.act)
        else if repeatable cfg.act = true ∨ cfg.act = .command then
          ({ st1 with holdActive := true, ta := true, repeatLt := fin.now }, [TEv.fire])
        else
          ({ st1 with holdActive := true, ta := true }, [TEv.fire])
      else if st.holdActive = true ∧ repeatable cfg.act = true then
        if REPEAT_INTERVAL ≤ fin.now - st.repeatLt then
          ({ st1 with repeatLt := fin.now }, [TEv.fire])
        else (st1, [])
      else (st1, [])
    | .toggle =>
      if fin.ht ≤ held ∧ st.ta = false ∧ fin.cd < fin.now - st.lt then
        if st.toggleState = false then
          ({ st1 with ta := true, lt := fin.now, toggleState := true },
           if holdable cfg.act then holdStartEvs cfg.act else [TEv.fire])
        else
          ({ st1 with ta := true, lt := fin.now, toggleState := false },
           if holdable cfg.act then holdStopEvs cfg.act else [])
      else (st1, [])
  else
    let p :=
      if cfg.mode = TMode.hold ∧ st.holdActive = true then
        (({ st with holdActive := false } : GState),
         if holdable cfg.act then holdStopEvs cfg.act else [])
      else (st, ([] : List TEv))
    ({ p.1 with ta := false, hs := 0 }, p.2)

/-- Process a list of frames through one gesture's trigger state machine,
concatenating the dispatched events. -/
def runGesture (cfg : GCfg) : GState → List FrameIn → GState × List TEv
  | st, [] => (st, [])
  | st, f :: fs =>
    let p := gestureStep cfg st f
    let q := runGesture cfg p.1 fs
    (q.1, p.2 ++ q.2)

/-- One gesture's slice of `_release_all_holds` (run on camera stop,
recalibration and window close): if hold-active or toggle-on, call
`execute_hold_stop` and clear both flags. -/
def releaseHold (cfg : GCfg) (st : GState) : GState × List TEv :=
  if st.holdActive = true ∨ st.toggleState = true then
    ({ st with holdActive := false, toggleState := false }, holdStopEvs cfg.act)
  else (st, [])

/-- The toggle-mode activation condition of `_of` evaluated on a frame:
enabled, score at/above threshold, dwell satisfied, not yet armed, and
cooldown elapsed since the last fire. -/
def toggleActCond (st : GState) (fin : FrameIn) : Prop :=
  fin.enabled = true ∧ fin.th ≤ fin.val ∧
  fin.ht ≤ fin.now - (if st.hs = 0 then fin.now else st.hs) ∧
  st.ta = false ∧ fin.cd < fin.now - st.lt

instance (st : GState) (fin : FrameIn) : Decidable (toggleActCond st fin) := by
  unfold toggleActCond; infer_instance

/-- Number of completed toggle activations along a trace. -/
def countToggleActs (cfg : GCfg) : GState → List FrameIn → ℕ
  | _, [] => 0
  | st, f :: fs =>
    (if toggleActCond st f then 1 else 0) +
      countToggleActs cfg (gestureStep cfg st f).1 fs

/-! ## Chain matcher -/

/-- A chain definition: the ordered gesture sequence and the per-step
timeout slider value (ms). -/
structure ChainCfg where
  seq : List GId
  timeout : ℚ
deriving DecidableEq

/-- Chain runtime state: current step index and timestamp of the last
accepted step. -/
structure ChainState where
  step : ℕ
  last_time : ℚ
deriving DecidableEq

/-- Initial chain state (`{'step': 0, 'last_time': 0.0}`). -/
def ChainState.init : ChainState := ⟨0, 0⟩

/-- The advance part of the chain loop body: `expected_gid = seq[step] if
step < len(seq) else None`; if the expected gesture is in this frame's
newly-activated set, advance and record the time, and on reaching the end
of the sequence fire (returned `Bool`) and reset to 0 atomically. -/
def chainAdvance (cfg : ChainCfg) (cs1 : ChainState) (newly : GId → Bool) (now : ℚ) :
    ChainState × Bool :=
  match cfg.seq[cs1.step]? with
  | some g =>
    if newly g then
      if cfg.seq.length ≤ cs1.step + 1 then (ChainState.init, true)
      else (⟨cs1.step + 1, now⟩, false)
    else (cs1, false)
  | none => (cs1, false)

/-- One chain's slice of the chain loop in `_of`: chains shorter than 2
are skipped; the step index resets on timeout; then `chainAdvance` runs on
this frame's newly-activated set. -/
def chainStep (cfg : ChainCfg) (cs : ChainState) (newly : GId → Bool) (now : ℚ) :
    ChainState × Bool :=
  if cfg.seq.length < 2 then (cs, false)
  else
    chainAdvance cfg
      (if 0 < cs.step ∧ cfg.timeout < now - cs.last_time then ChainState.init else cs)
      newly now

/-- Run a chain over a list of frames, each given as its newly-activated
gesture set and timestamp; counts the action fires. -/
def runChain (cfg : ChainCfg) : ChainState → List ((GId → Bool) × ℚ) → ChainState × ℕ
  | cs, [] => (cs, 0)
  | cs, i :: is =>
    let p := chainStep cfg cs i.1 i.2
    let q := runChain cfg p.1 is
    (q.1, (if p.2 then 1 else 0) + q.2)

/-- Per-gesture rising-edge tracker used by the chain block of `_of`
(`_chain_hs` and `_chain_ta`). -/
structure EdgeState where
  hs : ℚ
  ta : Bool
deriving DecidableEq

/-- Initial edge-tracker state. -/
def EdgeState.init : EdgeState := ⟨0, false⟩

/-- One gesture's slice of the chain-activation detection loop: the same
dwell gate as the trigger layer, using the card's threshold even when the
card is disabled; the returned `Bool` is membership in `_chain_newly`. -/
def edgeStep (st : EdgeState) (val th ht now : ℚ) : EdgeState × Bool :=
  if th ≤ val then
    let hs' := if st.hs = 0 then now else st.hs
    if ht ≤ now - hs' ∧ st.ta = false then (⟨hs', true⟩, true)
    else (⟨hs', st.ta⟩, false)
  else (⟨0, false⟩, false)

/-! ## Morse pattern matcher -/

/-- A morse symbol: short or long hold (`'S'` / `'L'`). -/
inductive MSym where
  | S
  | L
deriving DecidableEq

/-- A morse chain definition: the bound gesture, the short/long hold
thresholds, the symbol timeout, and the (pattern, action) pairs.  Actions
are identified by an opaque tag. -/
structure MorseCfg where
  gid : GId
  short : ℚ
  long : ℚ
  timeout : ℚ
  patterns : List (List MSym × ℕ)
deriving DecidableEq

/-- Morse runtime state (`_mc_active`, `_mc_hs`, `_mc_buf`, `_mc_last`). -/
structure MorseState where
  active : Bool
  hs : ℚ
  buf : List MSym
  last : ℚ
deriving DecidableEq

/-- Initial morse state. -/
def MorseState.init : MorseState := ⟨false, 0, [], 0⟩

/-- First configured pattern equal to the buffer (the `for pat, a_state in
chain.get_patterns()` loop with its `break`). -/
def morseFind (cfg : MorseCfg) (buf : List MSym) : Option (List MSym × ℕ) :=
  cfg.patterns.find? fun pa => decide (pa.1 = buf)

/-- Whether the buffer survives: `any(pat[:len(buf)] == buf for pat, _ in
patterns)`. -/
def morseBufSurvives (cfg : MorseCfg) (buf : List MSym) : Bool :=
  cfg.patterns.any fun pa => decide (pa.1.take buf.length = buf)

/-- One morse chain's slice of the morse loop in `_of`: idle-timeout
buffer clearing, rising-edge hold-start recording, and falling-edge symbol
classification, buffer append, exact-match firing (returned action tag)
and prefix-survival check. -/
def morseStep (cfg : MorseCfg) (st : MorseState) (val th now : ℚ) :
    MorseState × Option ℕ :=
  let st0 :=
    if st.active = false ∧ st.buf ≠ [] ∧ cfg.timeout < now - st.last then
      { st with buf := [] }
    else st
  if th ≤ val then
    if st0.active = false then ({ st0 with hs := now, active := true }, none)
    else (st0, none)
  else if st0.active = true then
    let held := now - st0.hs
    let st1 := { st0 with active := false, hs := 0 }
    if cfg.short ≤ held then
      let sym := if cfg.long ≤ held then MSym.L else MSym.S
      let buf' := st1.buf ++ [sym]
      let st2 := { st1 with buf := buf', last := now }
      match morseFind cfg buf' with
      | some pa => ({ st2 with buf := [] }, some pa.2)
      | none =>
        if morseBufSurvives cfg buf' then (st2, none)
        else ({ st2 with buf := [] }, none)
    else (st1, none)
  else (st0, none)

/-- Run a morse chain over (score, threshold, timestamp) frames,
collecting fired action tags. -/
def runMorse (cfg : MorseCfg) : MorseState → List (ℚ × ℚ × ℚ) → MorseState × List ℕ
  | st, [] => (st, [])
  | st, i :: is =>
    let p := morseStep cfg st i.1 i.2.1 i.2.2
    let q := runMorse cfg p.1 is
    (q.1, (p.2.elim [] fun t => [t]) ++ q.2)

/-- The morse buffer invariant: empty, or a strict prefix of at least one
configured pattern. -/
def morseBufInv (cfg : MorseCfg) (buf : List MSym) : Prop :=
  buf = [] ∨ ∃ pa ∈ cfg.patterns, buf.length < pa.1.length ∧ pa.1.take buf.length = buf

/-! ## Whole-frame processing (`MainWindow._of`) -/

/-- Per-frame GUI readings consumed by `_of`: per-gesture sensitivity
multipliers, tilt compensation, smoothing slider, cooldown and hold-time
sliders, per-card enabled/threshold/mode/action, and the frame time. -/
structure Env where
  sens : GId → ℚ
  tilt : ℚ
  smoothing : ℚ
  cd : ℚ
  ht : ℚ
  enabled : GId → Bool
  th : GId → ℚ
  mode : GId → TMode
  act : GId → Act
  now : ℚ

/-- The detection-relevant session state mutated by `_of`. -/
structure Session where
  det : DetState
  sm : GId → ℚ
  gs : GId → GState
  edges : GId → EdgeState
  chains : List (ChainCfg × ChainState)
  morse : List (MorseCfg × MorseState)

/-- An action request dispatched during one frame: a trigger-layer event
for a gesture, a chain completion (by chain position), or a morse pattern
completion (by action tag). -/
inductive SEv where
  | trig (g : GId) (e : TEv)
  | chainFire (idx : ℕ)
  | morseFire (tag : ℕ)
deriving DecidableEq

/-- One full pass of `_of` over an incoming camera frame: `none` (no face
detected) returns before any detection state is touched; otherwise the
detector runs (early return while calibrating), scores are smoothed, the
trigger loop, chain block and morse block run in order. -/
def processFrame (env : Env) (s : Session) (lm : Option Frame) : Session × List SEv :=
  match lm with
  | none => (s, [])
  | some f =>
    let dp := detCompute s.det env.tilt env.sens f
    if dp.1.calibrated = false then ({ s with det := dp.1 }, [])
    else
      let alpha := alphaOf env.smoothing
      let sm' := fun g => emaStep alpha (s.sm g) ((dp.2).get g)
      let tr :=
        gestureList.foldl
          (fun (acc : (GId → GState) × List SEv) g =>
            let p := gestureStep ⟨env.mode g, env.act g⟩ (acc.1 g)
              ⟨env.enabled g, sm' g, env.th g, env.cd, env.ht, env.now⟩
            (Function.update acc.1 g p.1, acc.2 ++ p.2.map (SEv.trig g)))
          (s.gs, [])
      let edges' :=
        if s.chains.isEmpty then s.edges
        else fun g => (edgeStep (s.edges g) (sm' g) (env.th g) env.ht env.now).1
      let newly :=
        if s.chains.isEmpty then fun _ => false
        else fun g => (edgeStep (s.edges g) (sm' g) (env.th g) env.ht env.now).2
      let cr := s.chains.map fun p =>
        let r := chainStep p.1 p.2 newly env.now
        ((p.1, r.1), r.2)
      let chainEvs := (cr.enum.filterMap fun q =>
        if q.2.2 then some (SEv.chainFire q.1) else none)
      let mr := s.morse.map fun p =>
        let r := morseStep p.1 p.2 (sm' p.1.gid) (env.th p.1.gid) env.now
        ((p.1, r.1), r.2)
      let morseEvs := mr.filterMap fun q => q.2.map SEv.morseFire
      ({ det := dp.1, sm := sm', gs := tr.1, edges := edges',
         chains := cr.map (·.1), morse := mr.map (·.1) },
       tr.2 ++ chainEvs ++ morseEvs)

/-- The number of unmatched hold starts a gesture state owes: 1 when the
gesture is hold-active with a holdable action, else 0. -/
def holdDebt (cfg : GCfg) (st : GState) : ℕ :=
  if st.holdActive && holdable cfg.act then 1 else 0

/-! ## Theorems -/

/-- Claim C2: When a processed camera frame contains no detected face (no
landmark set is supplied), `_of` returns before touching any detection
state: no action request is dispatched (every gesture is inactive for
that frame), and the calibration frame counter and baseline are neither
advanced nor reset. -/
theorem c2_no_face_frame_inert (env : Env) (s : Session) :
    processFrame env s none = (s, []) ∧
    (processFrame env s none).1.det.cal_n = s.det.cal_n ∧
    (processFrame env s none).1.det.bl = s.det.bl ∧
    (∀ g, (processFrame env s none).1.gs g = s.gs g) ∧
    (processFrame env s none).2 = [] :=
  ⟨rfl, rfl, rfl, fun _ => rfl, rfl⟩

theorem execMacroSteps_eq_spec (steps : List MacroStep) (b : Bool) :
    execMacroSteps b steps =
      (match steps with
       | [] => []
       | s :: _ => if b && stepIsKM s then [MacroEvent.sleepMs 50] else [])
        ++ specMacroTrace steps := by
  induction steps generalizing b with
  | nil => rfl
  | cons s rest ih =>
    cases rest with
    | nil => simp [execMacroSteps, specMacroTrace, ih]
    | cons t rest' =>
      have hstep : execMacroSteps b (s :: t :: rest') =
          (if b && stepIsKM s then [MacroEvent.sleepMs 50] else [])
            ++ stepEvents s ++ execMacroSteps (stepIsKM s) (t :: rest') := rfl
      rw [hstep, ih (stepIsKM s)]
      simp [specMacroTrace, specPause, List.append_assoc]

/-- Claim C9: `key:a;key:b` executes as press-a, hold 50 ms, release-a, an
implicit 50 ms pause, then press-b, hold 50 ms, release-b; with an explicit
`delay:10` between the key steps no implicit pause is inserted; and in
general the executed trace of any macro is each step's events with an
implicit 50 ms pause exactly between two consecutive executed steps that
are both key or mouse steps (`specMacroTrace`), never adjacent to a delay
step. -/
theorem c9_macro_spacing :
    executeMacro ("key:a;key:b".toList) =
      [.keyDown ['a'], .sleepMs 50, .keyUp ['a'], .sleepMs 50,
       .keyDown ['b'], .sleepMs 50, .keyUp ['b']] ∧
    executeMacro ("key:a;delay:10;key:b".toList) =
      [.keyDown ['a'], .sleepMs 50, .keyUp ['a'], .sleepMs 10,
       .keyDown ['b'], .sleepMs 50, .keyUp ['b']] ∧
    ∀ s : Str, executeMacro s = specMacroTrace (parseMacro s) := by
  refine ⟨by decide, by decide, fun s => ?_⟩
  by_cases hs : s = []
  · subst hs; rfl
  · simp [executeMacro, hs, execMacroSteps_eq_spec]
    cases parseMacro s <;> simp

theorem emaIter_sub_const (alpha S x0 : ℚ) :
    ∀ n, emaIter alpha S x0 n - S = (1 - alpha) ^ n * (x0 - S) := by
  intro n
  induction n with
  | zero => simp [emaIter]
  | succ n ih =>
    have : emaIter alpha S x0 (n + 1) - S = (1 - alpha) * (emaIter alpha S x0 n - S) := by
      simp [emaIter, emaStep]; ring
    rw [this, ih, pow_succ]; ring

/-- Claim C7: the smoother is the EMA `smoothed*(1-α) + raw*α` with
`α = 1 - (setting/15)*0.85`; for settings in `[1,15]`, `α ∈ (0,1)` and a
higher setting gives a strictly smaller `α`; for a constant raw input `S`
the iterates are strictly monotonic from any start on one side of `S`,
stay on that side, and converge toward `S`. -/
theorem c7_ema_smoother (s s' : ℚ) (h1 : 1 ≤ s) (h15 : s ≤ 15) (hss : s < s') (S x0 : ℚ) :
    (0 < alphaOf s ∧ alphaOf s < 1) ∧
    alphaOf s' < alphaOf s ∧
    (∀ prev val, emaStep (alphaOf s) prev val = prev * (1 - alphaOf s) + val * alphaOf s) ∧
    (x0 < S → ∀ n, emaIter (alphaOf s) S x0 n < emaIter (alphaOf s) S x0 (n + 1) ∧
      emaIter (alphaOf s) S x0 n < S) ∧
    (S < x0 → ∀ n, emaIter (alphaOf s) S x0 (n + 1) < emaIter (alphaOf s) S x0 n ∧
      S < emaIter (alphaOf s) S x0 n) ∧
    (∀ ε : ℚ, 0 < ε → ∃ N, |emaIter (alphaOf s) S x0 N - S| < ε) := by
  have ha0 : 0 < alphaOf s := by unfold alphaOf; nlinarith
  have ha1 : alphaOf s < 1 := by unfold alphaOf; nlinarith
  refine ⟨⟨ha0, ha1⟩, by unfold alphaOf; nlinarith, fun _ _ => rfl, ?_, ?_, ?_⟩
  · intro hx n
    induction n with
    | zero =>
      refine ⟨?_, hx⟩
      show x0 < emaStep (alphaOf s) x0 S
      unfold emaStep; nlinarith
    | succ n ih =>
      obtain ⟨_, hlt⟩ := ih
      have h2 : emaIter (alphaOf s) S x0 (n + 1) < S := by
        show emaStep (alphaOf s) (emaIter (alphaOf s) S x0 n) S < S
        unfold emaStep; nlinarith
      refine ⟨?_, h2⟩
      show emaIter (alphaOf s) S x0 (n + 1) <
        emaStep (alphaOf s) (emaIter (alphaOf s) S x0 (n + 1)) S
      unfold emaStep; nlinarith
  · intro hx n
    induction n with
    | zero =>
      refine ⟨?_, hx⟩
      show emaStep (alphaOf s) x0 S < x0
      unfold emaStep; nlinarith
    | succ n ih =>
      obtain ⟨_, hlt⟩ := ih
      have h2 : S < emaIter (alphaOf s) S x0 (n + 1) := by
        show S < emaStep (alphaOf s) (emaIter (alphaOf s) S x0 n) S
        unfold emaStep; nlinarith
      refine ⟨?_, h2⟩
      show emaStep (alphaOf s) (emaIter (alphaOf s) S x0 (n + 1)) S <
        emaIter (alphaOf s) S x0 (n + 1)
      unfold emaStep; nlinarith
  · intro ε hε
    set d := |x0 - S| with hd
    have hd0 : 0 ≤ d := abs_nonneg _
    have hq1 : (1 : ℚ) - alphaOf s < 1 := by linarith
    have hq0 : 0 ≤ 1 - alphaOf s := by linarith
    obtain ⟨N, hN⟩ := exists_pow_lt_of_lt_one (show (0 : ℚ) < ε / (d + 1) by positivity) hq1
    refine ⟨N, ?_⟩
    have habs : |emaIter (alphaOf s) S x0 N - S| = (1 - alphaOf s) ^ N * d := by
      rw [emaIter_sub_const, abs_mul, abs_pow, abs_of_nonneg hq0, hd]
    have hpow : 0 ≤ (1 - alphaOf s) ^ N := pow_nonneg hq0 N
    have h3 : (1 - alphaOf s) ^ N * (d + 1) < ε := by
      have := mul_lt_mul_of_pos_right hN (show (0 : ℚ) < d + 1 by linarith)
      rwa [div_mul_cancel₀ _ (show (d + 1 : ℚ) ≠ 0 by linarith)] at this
    have h4 : (1 - alphaOf s) ^ N * d ≤ (1 - alphaOf s) ^ N * (d + 1) := by nlinarith
    rw [habs]; linarith

/-- Witness for C7 at the default smoothing setting 9 (and 15 as the
larger setting). -/
theorem c7_witness :
    ((1 : ℚ) ≤ 9 ∧ (9 : ℚ) ≤ 15 ∧ (9 : ℚ) < 15) ∧
    ((0 < alphaOf 9 ∧ alphaOf 9 < 1) ∧
      alphaOf 15 < alphaOf 9 ∧
      (∀ prev val, emaStep (alphaOf 9) prev val = prev * (1 - alphaOf 9) + val * alphaOf 9) ∧
      ((0 : ℚ) < 70 → ∀ n, emaIter (alphaOf 9) 70 0 n < emaIter (alphaOf 9) 70 0 (n + 1) ∧
        emaIter (alphaOf 9) 70 0 n < 70) ∧
      ((70 : ℚ) < 0 → ∀ n, emaIter (alphaOf 9) 70 0 (n + 1) < emaIter (alphaOf 9) 70 0 n ∧
        70 < emaIter (alphaOf 9) 70 0 n) ∧
      (∀ ε : ℚ, 0 < ε → ∃ N, |emaIter (alphaOf 9) 70 0 N - 70| < ε)) :=
  ⟨⟨by decide, by decide, by decide⟩,
   c7_ema_smoother 9 15 (by decide) (by decide) (by decide) 70 0⟩

theorem detCompute_fst (st : DetState) (tilt : ℚ) (sens : GId → ℚ) (f : Frame) :
    (detCompute st tilt sens f).1 = detUpdate st f := rfl

theorem detCompute_snd_uncal (st : DetState) (tilt : ℚ) (sens : GId → ℚ) (f : Frame)
    (h : st.cal_n + 1 < CAL_N) :
    deltaZero (detCompute st tilt sens f).2 := by
  have hlt : st.cal_n < CAL_N := by omega
  have hcal : (detUpdate st f).calibrated = false := by
    unfold detUpdate
    rw [if_pos hlt]
    simp only [DetState.calibrated, decide_eq_false_iff_not]
    omega
  unfold detCompute
  simp [hcal, deltaZero, rawBase, rawZero]

theorem runDet_calibration (tilt : ℚ) (sens : GId → ℚ) :
    ∀ (fs : List Frame) (st : DetState), st.cal_n + fs.length ≤ CAL_N →
    (runDet tilt sens st fs).1.cal_n = st.cal_n + fs.length ∧
    (runDet tilt sens st fs).1.cal_s
      = fs.foldl (fun acc f => addFeats acc f.feats) st.cal_s ∧
    (st.cal_n + fs.length < CAL_N → (runDet tilt sens st fs).1.bl = st.bl) ∧
    (fs ≠ [] → st.cal_n + fs.length = CAL_N →
      (runDet tilt sens st fs).1.bl
        = divFeats ((runDet tilt sens st fs).1.cal_s) (CAL_N : ℚ)) ∧
    (runDet tilt sens st fs).2.length = fs.length ∧
    (∀ i : ℕ, i < fs.length → st.cal_n + i + 1 < CAL_N →
      deltaZero ((runDet tilt sens st fs).2.getD i rawZero)) := by
  intro fs
  induction fs with
  | nil =>
    intro st _
    refine ⟨by simp [runDet], by simp [runDet], fun _ => rfl, fun hne _ => absurd rfl hne,
      by simp [runDet], fun i hi _ => absurd hi (by simp)⟩
  | cons f fs' ih =>
    intro st hle
    have hlt : st.cal_n < CAL_N := by simp at hle; omega
    have hfst : (detCompute st tilt sens f).1 =
        (⟨st.cal_n + 1, addFeats st.cal_s f.feats,
          if st.cal_n + 1 = CAL_N then divFeats (addFeats st.cal_s f.feats) (CAL_N : ℚ)
          else st.bl⟩ : DetState) := by
      rw [detCompute_fst]
      unfold detUpdate
      rw [if_pos hlt]
    have hrun : runDet tilt sens st (f :: fs') =
        ((runDet tilt sens (detCompute st tilt sens f).1 fs').1,
         (detCompute st tilt sens f).2 ::
           (runDet tilt sens (detCompute st tilt sens f).1 fs').2) := rfl
    have hbound : ((detCompute st tilt sens f).1).cal_n + fs'.length ≤ CAL_N := by
      rw [hfst]; simp at hle ⊢; omega
    obtain ⟨ih1, ih2, ih3, ih4, ih5, ih6⟩ := ih (detCompute st tilt sens f).1 hbound
    refine ⟨?_, ?_, ?_, ?_, ?_, ?_⟩
    · rw [hrun]; rw [ih1, hfst]; simp; omega
    · rw [hrun]; rw [ih2, hfst]; rfl
    · intro hlen
      rw [hrun]
      have : ((detCompute st tilt sens f).1).cal_n + fs'.length < CAL_N := by
        rw [hfst]; simp at hlen ⊢; omega
      rw [ih3 this, hfst]
      have hne : ¬ (st.cal_n + 1 = CAL_N) := by simp at hlen; omega
      simp [hne]
    · intro _ htot
      rw [hrun]
      rcases eq_or_ne fs' [] with hnil | hne
      · subst hnil
        have h45 : st.cal_n + 1 = CAL_N := by simp at htot; omega
        simp only [runDet]
        rw [hfst]
        simp [h45]
      · have hx : ((detCompute st tilt sens f).1).cal_n + fs'.length = CAL_N := by
          rw [hfst]; simp at htot ⊢; omega
        exact ih4 hne hx
    · rw [hrun]; simp [ih5]
    · intro i hi hdelta
      rw [hrun]
      cases i with
      | zero =>
        simp only [List.getD_cons_zero]
        exact detCompute_snd_uncal st tilt sens f (by omega)
      | succ j =>
        simp only [List.getD_cons_succ]
        refine ih6 j (by simpa using hi) ?_
        rw [hfst]; simp at hdelta ⊢; omega

/-- Claim C3: From a reset detector, the first 45 landmark frames accumulate
the running sum of every baseline-tracked feature; on the 45th frame the
baseline is finalized as `sum/45` and `calibrated` latches true; and on
every frame before the 45th all nine delta-based gesture scores (all 12
gestures except blink, wink_left, wink_right) are 0. -/
theorem c3_calibration (tilt : ℚ) (sens : GId → ℚ) (fs : List Frame)
    (h45 : fs.length = CAL_N) :
    (runDet tilt sens DetState.reset fs).1.cal_n = CAL_N ∧
    (runDet tilt sens DetState.reset fs).1.calibrated = true ∧
    (runDet tilt sens DetState.reset fs).1.cal_s = sumFeats fs ∧
    (runDet tilt sens DetState.reset fs).1.bl = divFeats (sumFeats fs) (CAL_N : ℚ) ∧
    (runDet tilt sens DetState.reset fs).2.length = CAL_N ∧
    ∀ i : ℕ, i + 1 < CAL_N →
      deltaZero ((runDet tilt sens DetState.reset fs).2.getD i rawZero) := by
  obtain ⟨h1, h2, h3, h4, h5, h6⟩ :=
    runDet_calibration tilt sens fs DetState.reset (by simp [DetState.reset, h45])
  have hne : fs ≠ [] := by
    intro h
    rw [h] at h45
    simp [CAL_N] at h45
  have hn : (runDet tilt sens DetState.reset fs).1.cal_n = CAL_N := by
    rw [h1]; simp [DetState.reset, h45]
  have hcs : (runDet tilt sens DetState.reset fs).1.cal_s = sumFeats fs := by
    rw [h2]; rfl
  refine ⟨hn, ?_, hcs, ?_, by rw [h5, h45], ?_⟩
  · simp [DetState.calibrated, hn]
  · rw [h4 hne (by simp [DetState.reset, h45]), hcs]
  · intro i hi
    refine h6 i (by omega) (by simp [DetState.reset]; omega)

/-- Witness for C3: 45 identical neutral frames. -/
theorem c3_witness :
    (List.replicate CAL_N (⟨⟨0, 0, 0, 0, 0, 0, 0, 0, 0, 0, 0, 0, 0⟩, 0.3, 0.3, 0⟩ : Frame)).length = CAL_N ∧
    ((runDet 35 (fun _ => 1) DetState.reset
        (List.replicate CAL_N (⟨⟨0, 0, 0, 0, 0, 0, 0, 0, 0, 0, 0, 0, 0⟩, 0.3, 0.3, 0⟩ : Frame))).1.calibrated = true ∧
      ∀ i : ℕ, i + 1 < CAL_N →
        deltaZero ((runDet 35 (fun _ => 1) DetState.reset
          (List.replicate CAL_N (⟨⟨0, 0, 0, 0, 0, 0, 0, 0, 0, 0, 0, 0, 0⟩, 0.3, 0.3, 0⟩ : Frame))).2.getD i rawZero)) := by
  have h := c3_calibration 35 (fun _ => 1)
    (List.replicate CAL_N (⟨⟨0, 0, 0, 0, 0, 0, 0, 0, 0, 0, 0, 0, 0⟩, 0.3, 0.3, 0⟩ : Frame))
    (by simp)
  exact ⟨by simp, h.2.1, h.2.2.2.2.2⟩

theorem runGesture_append (cfg : GCfg) (fs gs : List FrameIn) :
    ∀ st : GState,
      runGesture cfg st (fs ++ gs) =
        ((runGesture cfg (runGesture cfg st fs).1 gs).1,
         (runGesture cfg st fs).2 ++ (runGesture cfg (runGesture cfg st fs).1 gs).2) := by
  induction fs with
  | nil => intro st; simp [runGesture]
  | cons f fs' ih =>
    intro st
    show runGesture cfg st (f :: (fs' ++ gs)) = _
    simp only [runGesture]
    rw [ih]
    simp [List.append_assoc]

set_option maxHeartbeats 1600000 in
theorem hold_step_balance (act : Act) (st : GState) (f : FrameIn) :
    (gestureStep ⟨TMode.hold, act⟩ st f).2.count TEv.holdStart
        + holdDebt ⟨TMode.hold, act⟩ st
      = (gestureStep ⟨TMode.hold, act⟩ st f).2.count TEv.holdStop
        + holdDebt ⟨TMode.hold, act⟩ (gestureStep ⟨TMode.hold, act⟩ st f).1 := by
  unfold gestureStep holdDebt holdStartEvs holdStopEvs
  split_ifs <;> simp_all [List.count_cons, List.count_nil] <;>
    split_ifs <;> simp_all [List.count_cons, List.count_nil]

theorem hold_run_balance (act : Act) (fs : List FrameIn) :
    ∀ st : GState,
      (runGesture ⟨TMode.hold, act⟩ st fs).2.count TEv.holdStart
          + holdDebt ⟨TMode.hold, act⟩ st
        = (runGesture ⟨TMode.hold, act⟩ st fs).2.count TEv.holdStop
          + holdDebt ⟨TMode.hold, act⟩ (runGesture ⟨TMode.hold, act⟩ st fs).1 := by
  induction fs with
  | nil => intro st; rfl
  | cons f fs' ih =>
    intro st
    have hrun : runGesture ⟨TMode.hold, act⟩ st (f :: fs') =
        ((runGesture ⟨TMode.hold, act⟩ (gestureStep ⟨TMode.hold, act⟩ st f).1 fs').1,
         (gestureStep ⟨TMode.hold, act⟩ st f).2 ++
           (runGesture ⟨TMode.hold, act⟩ (gestureStep ⟨TMode.hold, act⟩ st f).1 fs').2) := rfl
    rw [hrun]
    simp only [List.count_append]
    have h1 := hold_step_balance act st f
    have h2 := ih (gestureStep ⟨TMode.hold, act⟩ st f).1
    omega

theorem hold_step_toggle (act : Act) (st : GState) (f : FrameIn) :
    (gestureStep ⟨TMode.hold, act⟩ st f).1.toggleState = st.toggleState := by
  unfold gestureStep
  split_ifs <;> simp_all <;> split_ifs <;> simp_all

theorem hold_run_toggle (act : Act) (fs : List FrameIn) :
    ∀ st : GState,
      (runGesture ⟨TMode.hold, act⟩ st fs).1.toggleState = st.toggleState := by
  induction fs with
  | nil => intro st; rfl
  | cons f fs' ih =>
    intro st
    show (runGesture ⟨TMode.hold, act⟩ (gestureStep ⟨TMode.hold, act⟩ st f).1 fs').1.toggleState = _
    rw [ih, hold_step_toggle]

theorem hold_step_clears (act : Act) (st : GState) (f : FrameIn)
    (h : (f.enabled = true ∧ f.val < f.th) ∨ f.enabled = false) :
    (gestureStep ⟨TMode.hold, act⟩ st f).1.holdActive = false := by
  unfold gestureStep
  rcases h with ⟨he, hv⟩ | he
  · have hnth : ¬ (f.th ≤ f.val) := not_le.mpr hv
    simp only [he, Bool.true_eq_false, if_false, if_neg hnth]
    split_ifs <;> simp_all
  · simp only [he, if_true]
    split_ifs <;> simp_all

/-- Claim C1: for a gesture configured in hold mode, hold starts never leak:
along any run from the initial state the number of dispatched hold-start
requests exceeds the hold stops by exactly the current hold debt (1 iff
hold-active with a sustain-capable action); and the debt is closed — all
starts matched by stops and hold-active cleared — by the first processed
frame whose smoothed score is below the gesture's minimum threshold, by a
frame on which the gesture is disabled, and by `_release_all_holds`
(session stop / teardown). -/
theorem c1_hold_no_leak (act : Act) (fs : List FrameIn) :
    (runGesture ⟨TMode.hold, act⟩ GState.init fs).2.count TEv.holdStart
      = (runGesture ⟨TMode.hold, act⟩ GState.init fs).2.count TEv.holdStop
        + holdDebt ⟨TMode.hold, act⟩ (runGesture ⟨TMode.hold, act⟩ GState.init fs).1 ∧
    (∀ f : FrameIn, f.enabled = true → f.val < f.th →
      (gestureStep ⟨TMode.hold, act⟩ (runGesture ⟨TMode.hold, act⟩ GState.init fs).1 f).1.holdActive = false ∧
      (runGesture ⟨TMode.hold, act⟩ GState.init (fs ++ [f])).2.count TEv.holdStart
        = (runGesture ⟨TMode.hold, act⟩ GState.init (fs ++ [f])).2.count TEv.holdStop) ∧
    (∀ f : FrameIn, f.enabled = false →
      (gestureStep ⟨TMode.hold, act⟩ (runGesture ⟨TMode.hold, act⟩ GState.init fs).1 f).1.holdActive = false ∧
      (runGesture ⟨TMode.hold, act⟩ GState.init (fs ++ [f])).2.count TEv.holdStart
        = (runGesture ⟨TMode.hold, act⟩ GState.init (fs ++ [f])).2.count TEv.holdStop) ∧
    ((releaseHold ⟨TMode.hold, act⟩ (runGesture ⟨TMode.hold, act⟩ GState.init fs).1).1.holdActive = false ∧
      ((runGesture ⟨TMode.hold, act⟩ GState.init fs).2
          ++ (releaseHold ⟨TMode.hold, act⟩ (runGesture ⟨TMode.hold, act⟩ GState.init fs).1).2).count TEv.holdStart
        = ((runGesture ⟨TMode.hold, act⟩ GState.init fs).2
          ++ (releaseHold ⟨TMode.hold, act⟩ (runGesture ⟨TMode.hold, act⟩ GState.init fs).1).2).count TEv.holdStop) := by
  have hbal := hold_run_balance act fs GState.init
  have hdebt0 : holdDebt ⟨TMode.hold, act⟩ GState.init = 0 := rfl
  set r := runGesture ⟨TMode.hold, act⟩ GState.init fs with hr
  have happend : ∀ f : FrameIn,
      runGesture ⟨TMode.hold, act⟩ GState.init (fs ++ [f]) =
        ((gestureStep ⟨TMode.hold, act⟩ r.1 f).1,
         r.2 ++ (gestureStep ⟨TMode.hold, act⟩ r.1 f).2) := by
    intro f
    rw [runGesture_append ⟨TMode.hold, act⟩ fs [f] GState.init, ← hr]
    simp [runGesture]
  have hclose : ∀ f : FrameIn,
      (gestureStep ⟨TMode.hold, act⟩ r.1 f).1.holdActive = false →
      (runGesture ⟨TMode.hold, act⟩ GState.init (fs ++ [f])).2.count TEv.holdStart
        = (runGesture ⟨TMode.hold, act⟩ GState.init (fs ++ [f])).2.count TEv.holdStop := by
    intro f hha
    rw [happend f]
    simp only [List.count_append]
    have hstep := hold_step_balance act r.1 f
    have hd : holdDebt ⟨TMode.hold, act⟩ (gestureStep ⟨TMode.hold, act⟩ r.1 f).1 = 0 := by
      unfold holdDebt
      rw [hha]
      simp
    omega
  refine ⟨by omega, ?_, ?_, ?_⟩
  · intro f he hv
    have h := hold_step_clears act r.1 f (Or.inl ⟨he, hv⟩)
    exact ⟨h, hclose f h⟩
  · intro f he
    have h := hold_step_clears act r.1 f (Or.inr he)
    exact ⟨h, hclose f h⟩
  · have htog : r.1.toggleState = false := by
      rw [hr]
      exact hold_run_toggle act fs GState.init
    have hrel : (releaseHold ⟨TMode.hold, act⟩ r.1).1.holdActive = false := by
      unfold releaseHold
      split_ifs <;> simp_all
    refine ⟨hrel, ?_⟩
    simp only [List.count_append]
    have hrelbal : (releaseHold ⟨TMode.hold, act⟩ r.1).2.count TEv.holdStart
          + holdDebt ⟨TMode.hold, act⟩ r.1
        = (releaseHold ⟨TMode.hold, act⟩ r.1).2.count TEv.holdStop
          + holdDebt ⟨TMode.hold, act⟩ (releaseHold ⟨TMode.hold, act⟩ r.1).1 := by
      unfold releaseHold holdDebt holdStopEvs
      split_ifs <;> simp_all [List.count_cons, List.count_nil]
    have hd : holdDebt ⟨TMode.hold, act⟩ (releaseHold ⟨TMode.hold, act⟩ r.1).1 = 0 := by
      unfold holdDebt
      rw [hrel]
      simp
    omega

/-- Witness for C1: a hold-mode key gesture that activates (dwell 200 ms
satisfied at t=1300) and then drops below threshold at t=1400. -/
theorem c1_witness :
    ((⟨true, 0, 50, 650, 200, 1400⟩ : FrameIn).enabled = true ∧
      (⟨true, 0, 50, 650, 200, 1400⟩ : FrameIn).val < (⟨true, 0, 50, 650, 200, 1400⟩ : FrameIn).th) ∧
    ((gestureStep ⟨TMode.hold, Act.key⟩
        (runGesture ⟨TMode.hold, Act.key⟩ GState.init
          [⟨true, 100, 50, 650, 200, 1000⟩, ⟨true, 100, 50, 650, 200, 1300⟩]).1
        ⟨true, 0, 50, 650, 200, 1400⟩).1.holdActive = false ∧
      (runGesture ⟨TMode.hold, Act.key⟩ GState.init
          ([⟨true, 100, 50, 650, 200, 1000⟩, ⟨true, 100, 50, 650, 200, 1300⟩]
            ++ [⟨true, 0, 50, 650, 200, 1400⟩])).2.count TEv.holdStart
        = (runGesture ⟨TMode.hold, Act.key⟩ GState.init
            ([⟨true, 100, 50, 650, 200, 1000⟩, ⟨true, 100, 50, 650, 200, 1300⟩]
              ++ [⟨true, 0, 50, 650, 200, 1400⟩])).2.count TEv.holdStop) :=
  ⟨⟨rfl, by decide⟩,
   (c1_hold_no_leak Act.key
      [⟨true, 100, 50, 650, 200, 1000⟩, ⟨true, 100, 50, 650, 200, 1300⟩]).2.1
     ⟨true, 0, 50, 650, 200, 1400⟩ rfl (by decide)⟩

theorem gestureStep_toggle (act : Act) (st : GState) (f : FrameIn) :
    gestureStep ⟨TMode.toggle, act⟩ st f =
      (if f.enabled = false then
         if st.holdActive then ({ st with holdActive := false }, holdStopEvs act)
         else (st, [])
       else if f.th ≤ f.val then
         (if f.ht ≤ f.now - (if st.hs = 0 then f.now else st.hs) ∧ st.ta = false ∧
              f.cd < f.now - st.lt then
            (if st.toggleState = false then
               ({ st with
                   hs := (if st.hs = 0 then f.now else st.hs)
                   ta := true
                   lt := f.now
                   toggleState := true },
                if holdable act then holdStartEvs act else [TEv.fire])
             else
               ({ st with
                   hs := (if st.hs = 0 then f.now else st.hs)
                   ta := true
                   lt := f.now
                   toggleState := false },
                if holdable act then holdStopEvs act else []))
          else ({ st with hs := (if st.hs = 0 then f.now else st.hs) }, []))
       else ({ st with ta := false, hs := 0 }, [])) := rfl

theorem toggle_step_fires (act : Act) (st : GState) (f : FrameIn)
    (hc : toggleActCond st f) :
    (gestureStep ⟨TMode.toggle, act⟩ st f).1.toggleState = !st.toggleState ∧
    (gestureStep ⟨TMode.toggle, act⟩ st f).2 =
      (if st.toggleState = false then
         (if holdable act then [TEv.holdStart] else [TEv.fire])
       else (if holdable act then [TEv.holdStop] else [])) := by
  obtain ⟨he, hv, hd, hta, hcd⟩ := hc
  rw [gestureStep_toggle]
  simp only [he, Bool.true_eq_false, if_false, if_pos hv]
  rw [if_pos ⟨hd, hta, hcd⟩]
  cases hts : st.toggleState <;>
    simp [hts, holdStartEvs, holdStopEvs] <;>
    by_cases hh : holdable act = true <;> simp [hh]

theorem toggle_step_const (act : Act) (st : GState) (f : FrameIn)
    (hc : ¬ toggleActCond st f) :
    (gestureStep ⟨TMode.toggle, act⟩ st f).1.toggleState = st.toggleState := by
  rw [gestureStep_toggle]
  split_ifs <;>
    first
      | rfl
      | (exact absurd (⟨by simp_all, by simp_all, by simp_all, by simp_all, by simp_all⟩ :
          toggleActCond st f) hc)
      | simp_all

theorem toggle_run_parity (act : Act) (fs : List FrameIn) :
    ∀ st : GState,
      (runGesture ⟨TMode.toggle, act⟩ st fs).1.toggleState =
        (if countToggleActs ⟨TMode.toggle, act⟩ st fs % 2 = 0 then st.toggleState
         else !st.toggleState) := by
  induction fs with
  | nil => intro st; simp [runGesture, countToggleActs]
  | cons f fs' ih =>
    intro st
    show (runGesture ⟨TMode.toggle, act⟩
        (gestureStep ⟨TMode.toggle, act⟩ st f).1 fs').1.toggleState = _
    rw [ih]
    by_cases hc : toggleActCond st f
    · have hflip := (toggle_step_fires act st f hc).1
      have hcons : countToggleActs ⟨TMode.toggle, act⟩ st (f :: fs') =
          (if toggleActCond st f then 1 else 0) + countToggleActs ⟨TMode.toggle, act⟩
            (gestureStep ⟨TMode.toggle, act⟩ st f).1 fs' := rfl
      have hcount : countToggleActs ⟨TMode.toggle, act⟩ st (f :: fs') =
          1 + countToggleActs ⟨TMode.toggle, act⟩
            (gestureStep ⟨TMode.toggle, act⟩ st f).1 fs' := by
        rw [hcons, if_pos hc]
      rw [hcount, hflip]
      rcases Nat.mod_two_eq_zero_or_one
        (countToggleActs ⟨TMode.toggle, act⟩ (gestureStep ⟨TMode.toggle, act⟩ st f).1 fs')
        with hk | hk <;>
        simp [hk, Nat.add_mod, Bool.not_not]
    · have hconst := toggle_step_const act st f hc
      have hcons : countToggleActs ⟨TMode.toggle, act⟩ st (f :: fs') =
          (if toggleActCond st f then 1 else 0) + countToggleActs ⟨TMode.toggle, act⟩
            (gestureStep ⟨TMode.toggle, act⟩ st f).1 fs' := rfl
      have hcount : countToggleActs ⟨TMode.toggle, act⟩ st (f :: fs') =
          countToggleActs ⟨TMode.toggle, act⟩
            (gestureStep ⟨TMode.toggle, act⟩ st f).1 fs' := by
        rw [hcons, if_neg hc]
        omega
      rw [hcount, hconst]

/-- Claim C8: for a toggle-mode gesture, each completed activation (enabled,
score at/above threshold, dwell satisfied, not yet armed, cooldown elapsed
since the last fire) flips the persistent on/off flag — turning on issues
a hold-start for sustain-capable actions and a single fire otherwise,
turning off issues a hold-stop for sustain-capable actions only; a frame
without a completed activation leaves the flag unchanged; hence over any
trace the flag equals its initial value XORed with the parity of the
number of completed activations (so two activations restore it and an odd
number inverts it). -/
theorem c8_toggle_idempotence (act : Act) :
    (∀ st f, toggleActCond st f →
      (gestureStep ⟨TMode.toggle, act⟩ st f).1.toggleState = !st.toggleState ∧
      (gestureStep ⟨TMode.toggle, act⟩ st f).2 =
        (if st.toggleState = false then
           (if holdable act then [TEv.holdStart] else [TEv.fire])
         else (if holdable act then [TEv.holdStop] else []))) ∧
    (∀ st f, ¬ toggleActCond st f →
      (gestureStep ⟨TMode.toggle, act⟩ st f).1.toggleState = st.toggleState) ∧
    (∀ st fs,
      (runGesture ⟨TMode.toggle, act⟩ st fs).1.toggleState =
        (if countToggleActs ⟨TMode.toggle, act⟩ st fs % 2 = 0 then st.toggleState
         else !st.toggleState)) :=
  ⟨fun st f hc => toggle_step_fires act st f hc,
   fun st f hc => toggle_step_const act st f hc,
   fun st fs => toggle_run_parity act fs st⟩

/-- Witness for C8: a key-bound toggle gesture activating at t=1000 with
hold-time 0 and cooldown 650 ms. -/
theorem c8_witness :
    toggleActCond GState.init ⟨true, 100, 50, 650, 0, 1000⟩ ∧
    ((gestureStep ⟨TMode.toggle, Act.key⟩ GState.init
        ⟨true, 100, 50, 650, 0, 1000⟩).1.toggleState = !GState.init.toggleState ∧
      (gestureStep ⟨TMode.toggle, Act.key⟩ GState.init
          ⟨true, 100, 50, 650, 0, 1000⟩).2 =
        (if GState.init.toggleState = false then
           (if holdable Act.key then [TEv.holdStart] else [TEv.fire])
         else (if holdable Act.key then [TEv.holdStop] else []))) :=
  ⟨by norm_num [toggleActCond, GState.init],
   (c8_toggle_idempotence Act.key).1 GState.init ⟨true, 100, 50, 650, 0, 1000⟩
     (by norm_num [toggleActCond, GState.init])⟩

theorem chainAdvance_lt (cfg : ChainCfg) (h2 : 2 ≤ cfg.seq.length) (cs1 : ChainState)
    (newly : GId → Bool) (now : ℚ) (hlt : cs1.step < cfg.seq.length) :
    (chainAdvance cfg cs1 newly now).1.step < cfg.seq.length := by
  unfold chainAdvance
  cases hg : cfg.seq[cs1.step]? with
  | none => simpa using hlt
  | some g =>
    by_cases hn : newly g = true
    · by_cases hc : cfg.seq.length ≤ cs1.step + 1
      · simp [hn, hc, ChainState.init]; omega
      · simp [hn, hc]; omega
    · simpa [hn] using hlt

theorem chainStep_lt (cfg : ChainCfg) (h2 : 2 ≤ cfg.seq.length) (cs : ChainState)
    (newly : GId → Bool) (now : ℚ) (hlt : cs.step < cfg.seq.length) :
    (chainStep cfg cs newly now).1.step < cfg.seq.length := by
  unfold chainStep
  rw [if_neg (show ¬(cfg.seq.length < 2) by omega)]
  refine chainAdvance_lt cfg h2 _ newly now ?_
  split
  · simp [ChainState.init]; omega
  · exact hlt

theorem chainStep_const (cfg : ChainCfg) (cs : ChainState) (newly : GId → Bool) (now : ℚ)
    (h2 : 2 ≤ cfg.seq.length)
    (hnt : ¬(0 < cs.step ∧ cfg.timeout < now - cs.last_time))
    (hnm : ∀ g, cfg.seq[cs.step]? = some g → newly g = false) :
    chainStep cfg cs newly now = (cs, false) := by
  unfold chainStep chainAdvance
  rw [if_neg (show ¬(cfg.seq.length < 2) by omega), if_neg hnt]
  cases hg : cfg.seq[cs.step]? with
  | none => rfl
  | some g => simp [hnm g hg]

theorem chainAdvance_fire (cfg : ChainCfg) (cs1 : ChainState) (newly : GId → Bool)
    (now : ℚ) (hf : (chainAdvance cfg cs1 newly now).2 = true) :
    (chainAdvance cfg cs1 newly now).1 = ChainState.init ∧
    cfg.seq.length ≤ cs1.step + 1 := by
  unfold chainAdvance at hf ⊢
  cases hg : cfg.seq[cs1.step]? with
  | none => simp [hg] at hf
  | some g =>
    by_cases hn : newly g = true
    · by_cases hc : cfg.seq.length ≤ cs1.step + 1
      · simp [hg, hn, hc]
      · simp [hg, hn, hc] at hf
    · simp [hg, hn] at hf

theorem chainStep_fire_resets (cfg : ChainCfg) (cs : ChainState) (newly : GId → Bool)
    (now : ℚ) (hf : (chainStep cfg cs newly now).2 = true) :
    (chainStep cfg cs newly now).1 = ChainState.init := by
  unfold chainStep at hf ⊢
  by_cases hlen : cfg.seq.length < 2
  · rw [if_pos hlen] at hf
    simp at hf
  · rw [if_neg hlen] at hf ⊢
    exact (chainAdvance_fire cfg _ newly now hf).1

theorem chainStep_reset_only (cfg : ChainCfg) (cs : ChainState) (newly : GId → Bool)
    (now : ℚ) (h2 : 2 ≤ cfg.seq.length) (hpos : 0 < cs.step)
    (hz : (chainStep cfg cs newly now).1.step = 0) :
    cfg.timeout < now - cs.last_time ∨ (chainStep cfg cs newly now).2 = true := by
  by_cases htm : 0 < cs.step ∧ cfg.timeout < now - cs.last_time
  · exact Or.inl htm.2
  · refine Or.inr ?_
    unfold chainStep chainAdvance at hz ⊢
    rw [if_neg (show ¬(cfg.seq.length < 2) by omega), if_neg htm] at hz ⊢
    cases hg : cfg.seq[cs.step]? with
    | none => simp [hg] at hz; omega
    | some g =>
      by_cases hn : newly g = true
      · by_cases hc : cfg.seq.length ≤ cs.step + 1
        · simp [hg, hn, hc]
        · simp [hg, hn, hc] at hz
      · simp [hg, hn] at hz; omega

theorem runChain_lt (cfg : ChainCfg) (h2 : 2 ≤ cfg.seq.length)
    (inputs : List ((GId → Bool) × ℚ)) :
    (runChain cfg ChainState.init inputs).1.step < cfg.seq.length := by
  suffices h : ∀ (is : List ((GId → Bool) × ℚ)) (cs : ChainState),
      cs.step < cfg.seq.length → (runChain cfg cs is).1.step < cfg.seq.length by
    refine h inputs ChainState.init ?_
    simp [ChainState.init]
    omega
  intro is
  induction is with
  | nil => intro cs h; exact h
  | cons i is' ih =>
    intro cs h
    exact ih _ (chainStep_lt cfg h2 cs i.1 i.2 h)

/-- Claim C4: for every chain with at least 2 gestures: the step index stays
in range (below the sequence length, hence within `[0, len]`); a frame
whose newly-activated set does not contain the expected gesture — and
whose idle time has not exceeded the timeout — leaves the chain state
completely unchanged (non-matching edges are ignored); a positive index
drops to 0 only on timeout or on completion; completing fires (the
boolean fire flag of the frame) and resets the state atomically in the
same frame; and along any run from the initial state the index invariant
holds. -/
theorem c4_chain_exact_order (cfg : ChainCfg) (h2 : 2 ≤ cfg.seq.length) :
    (∀ (cs : ChainState) (newly : GId → Bool) (now : ℚ), cs.step < cfg.seq.length →
      (chainStep cfg cs newly now).1.step < cfg.seq.length) ∧
    (∀ (cs : ChainState) (newly : GId → Bool) (now : ℚ),
      ¬(0 < cs.step ∧ cfg.timeout < now - cs.last_time) →
      (∀ g, cfg.seq[cs.step]? = some g → newly g = false) →
      chainStep cfg cs newly now = (cs, false)) ∧
    (∀ (cs : ChainState) (newly : GId → Bool) (now : ℚ), 0 < cs.step →
      (chainStep cfg cs newly now).1.step = 0 →
      cfg.timeout < now - cs.last_time ∨ (chainStep cfg cs newly now).2 = true) ∧
    (∀ (cs : ChainState) (newly : GId → Bool) (now : ℚ),
      (chainStep cfg cs newly now).2 = true →
      (chainStep cfg cs newly now).1 = ChainState.init) ∧
    (∀ inputs : List ((GId → Bool) × ℚ),
      (runChain cfg ChainState.init inputs).1.step < cfg.seq.length) :=
  ⟨fun cs newly now => chainStep_lt cfg h2 cs newly now,
   fun cs newly now => chainStep_const cfg cs newly now h2,
   fun cs newly now hpos hz => chainStep_reset_only cfg cs newly now h2 hpos hz,
   fun cs newly now => chainStep_fire_resets cfg cs newly now,
   fun inputs => runChain_lt cfg h2 inputs⟩

/-- Witness for C4: a two-gesture chain sitting at step 1; an unrelated
edge at t=1200 (within the 1500 ms timeout) leaves the chain unchanged. -/
theorem c4_witness :
    2 ≤ ([GId.blink, GId.smile] : List GId).length ∧
    chainStep ⟨[GId.blink, GId.smile], 1500⟩ ⟨1, 1000⟩ (fun _ => false) 1200
      = (⟨1, 1000⟩, false) :=
  ⟨by decide,
   (c4_chain_exact_order ⟨[GId.blink, GId.smile], 1500⟩ (by decide)).2.1
     ⟨1, 1000⟩ (fun _ => false) 1200 (by norm_num) (fun _ _ => rfl)⟩

/-- Claim C5: on a falling edge of a morse chain's bound gesture (active and
now below threshold): a hold shorter than the short threshold appends no
symbol and fires nothing; a hold of at least the short threshold appends
`L` when it also reached the long threshold and `S` otherwise, and the
fired action is exactly the first configured pattern equal to the extended
buffer (at most one fires), with the buffer cleared on a match. -/
theorem c5_morse_symbols (cfg : MorseCfg) (st : MorseState) (val th now : ℚ)
    (hact : st.active = true) (hlt : val < th) :
    (now - st.hs < cfg.short →
      (morseStep cfg st val th now).1.buf = st.buf ∧
      (morseStep cfg st val th now).2 = none) ∧
    (cfg.short ≤ now - st.hs →
      (morseStep cfg st val th now).2 =
        (morseFind cfg (st.buf ++ [if cfg.long ≤ now - st.hs then MSym.L else MSym.S])).map
          (fun pa => pa.2) ∧
      (∀ pa, morseFind cfg
          (st.buf ++ [if cfg.long ≤ now - st.hs then MSym.L else MSym.S]) = some pa →
        (morseStep cfg st val th now).1.buf = [])) := by
  have h0 : ¬(st.active = false ∧ st.buf ≠ [] ∧ cfg.timeout < now - st.last) := by
    simp [hact]
  have hnv : ¬(th ≤ val) := not_le.mpr hlt
  constructor
  · intro hshort
    have hns : ¬(cfg.short ≤ now - st.hs) := not_le.mpr hshort
    simp [morseStep, h0, hnv, hact, hns]
  · intro hshort
    cases hfind : morseFind cfg
        (st.buf ++ [if cfg.long ≤ now - st.hs then MSym.L else MSym.S]) with
    | none =>
      simp [morseStep, h0, hnv, hact, hshort, hfind]
      split <;> split <;> rfl
    | some pa => simp [morseStep, h0, hnv, hact, hshort, hfind]

/-- Witness for C5: a one-pattern morse chain; a 100 ms hold released at
t=1100 appends no symbol and fires nothing. -/
theorem c5_witness :
    ((⟨GId.blink, 200, 600, 1500, [([MSym.S, MSym.L], 7)]⟩ : MorseCfg).short = 200 ∧
      (0 : ℚ) < 30 ∧ (1100 : ℚ) - 1000 < 200) ∧
    ((morseStep ⟨GId.blink, 200, 600, 1500, [([MSym.S, MSym.L], 7)]⟩
        ⟨true, 1000, [], 0⟩ 0 30 1100).1.buf = (⟨true, 1000, [], 0⟩ : MorseState).buf ∧
      (morseStep ⟨GId.blink, 200, 600, 1500, [([MSym.S, MSym.L], 7)]⟩
        ⟨true, 1000, [], 0⟩ 0 30 1100).2 = none) :=
  ⟨⟨rfl, by norm_num, by norm_num⟩,
   (c5_morse_symbols ⟨GId.blink, 200, 600, 1500, [([MSym.S, MSym.L], 7)]⟩
      ⟨true, 1000, [], 0⟩ 0 30 1100 rfl (by norm_num)).1 (by norm_num)⟩

theorem morseBufInv_append (cfg : MorseCfg) (buf' : List MSym)
    (hfind : morseFind cfg buf' = none)
    (hsurv : morseBufSurvives cfg buf' = true) :
    morseBufInv cfg buf' := by
  unfold morseBufSurvives at hsurv
  rw [List.any_eq_true] at hsurv
  obtain ⟨pa, hmem, htake⟩ := hsurv
  rw [decide_eq_true_eq] at htake
  refine Or.inr ⟨pa, hmem, ?_, htake⟩
  by_contra hge
  push_neg at hge
  have heq : pa.1 = buf' := by
    rw [← htake]
    exact (List.take_of_length_le hge).symm
  have := List.find?_eq_none.mp hfind pa hmem
  simp [heq] at this

theorem morseStep_bufInv (cfg : MorseCfg) (st : MorseState) (val th now : ℚ)
    (hinv : morseBufInv cfg st.buf) :
    morseBufInv cfg (morseStep cfg st val th now).1.buf := by
  unfold morseStep
  by_cases h0 : st.active = false ∧ st.buf ≠ [] ∧ cfg.timeout < now - st.last
  · simp only [if_pos h0]
    by_cases hv : th ≤ val <;>
      simp [hv, h0.1] <;>
      exact Or.inl rfl
  · simp only [if_neg h0]
    by_cases hv : th ≤ val
    · simp only [if_pos hv]
      split <;> simpa using hinv
    · by_cases ha : st.active = true
      · by_cases hsh : cfg.short ≤ now - st.hs
        · cases hfind : morseFind cfg
              (st.buf ++ [if cfg.long ≤ now - st.hs then MSym.L else MSym.S]) with
          | some pa =>
            simp [hv, ha, hsh, hfind]
            exact Or.inl rfl
          | none =>
            by_cases hsurv : morseBufSurvives cfg
                (st.buf ++ [if cfg.long ≤ now - st.hs then MSym.L else MSym.S]) = true
            · simp [hv, ha, hsh, hfind, hsurv]
              exact morseBufInv_append cfg _ hfind hsurv
            · simp [hv, ha, hsh, hfind, hsurv]
              exact Or.inl rfl
        · simp [hv, ha, hsh]
          exact hinv
      · simp [hv, ha]
        exact hinv

theorem runMorse_bufInv (cfg : MorseCfg) (inputs : List (ℚ × ℚ × ℚ)) :
    morseBufInv cfg (runMorse cfg MorseState.init inputs).1.buf := by
  suffices h : ∀ (is : List (ℚ × ℚ × ℚ)) (st : MorseState),
      morseBufInv cfg st.buf → morseBufInv cfg (runMorse cfg st is).1.buf by
    exact h inputs MorseState.init (Or.inl rfl)
  intro is
  induction is with
  | nil => intro st h; exact h
  | cons i is' ih =>
    intro st h
    exact ih _ (morseStep_bufInv cfg st i.1 i.2.1 i.2.2 h)

/-- Claim C6: after each processed frame, a morse chain's symbol buffer is
either empty or a strict prefix (proper initial segment) of at least one
configured pattern; and a buffer that, in the frame it was extended,
exactly matches no pattern and is a prefix of none is cleared in that same
frame. -/
theorem c6_morse_buffer_invariant (cfg : MorseCfg) :
    (∀ inputs : List (ℚ × ℚ × ℚ),
      morseBufInv cfg (runMorse cfg MorseState.init inputs).1.buf) ∧
    (∀ (st : MorseState) (val th now : ℚ), st.active = true → val < th →
      cfg.short ≤ now - st.hs →
      morseFind cfg (st.buf ++ [if cfg.long ≤ now - st.hs then MSym.L else MSym.S]) = none →
      morseBufSurvives cfg
        (st.buf ++ [if cfg.long ≤ now - st.hs then MSym.L else MSym.S]) = false →
      (morseStep cfg st val th now).1.buf = []) := by
  constructor
  · exact fun inputs => runMorse_bufInv cfg inputs
  · intro st val th now hact hlt hsh hfind hsurv
    have h0 : ¬(st.active = false ∧ st.buf ≠ [] ∧ cfg.timeout < now - st.last) := by
      simp [hact]
    have hnv : ¬(th ≤ val) := not_le.mpr hlt
    simp [morseStep, h0, hnv, hact, hsh, hfind, hsurv]

/-- Witness for C6: releasing a 700 ms hold with buffer `[L]` extends it to
`[L, L]`, which matches no pattern and is a prefix of none, so it is
cleared in the same frame. -/
theorem c6_witness :
    morseBufInv ⟨GId.blink, 200, 600, 1500, [([MSym.S, MSym.L], 7)]⟩
      (runMorse ⟨GId.blink, 200, 600, 1500, [([MSym.S, MSym.L], 7)]⟩
        MorseState.init [(100, 30, 0), (0, 30, 300)]).1.buf ∧
    (morseStep ⟨GId.blink, 200, 600, 1500, [([MSym.S, MSym.L], 7)]⟩
      ⟨true, 0, [MSym.L], 0⟩ 0 30 700).1.buf = [] :=
  ⟨(c6_morse_buffer_invariant ⟨GId.blink, 200, 600, 1500, [([MSym.S, MSym.L], 7)]⟩).1
      [(100, 30, 0), (0, 30, 300)],
   (c6_morse_buffer_invariant ⟨GId.blink, 200, 600, 1500, [([MSym.S, MSym.L], 7)]⟩).2
      ⟨true, 0, [MSym.L], 0⟩ 0 30 700 rfl (by norm_num) (by norm_num)
      (by rw [if_pos (show (600 : ℚ) ≤ 700 - 0 by norm_num)]; rfl)
      (by rw [if_pos (show (600 : ℚ) ≤ 700 - 0 by norm_num)]; rfl)⟩

theorem dropWhile_append_cons {p : Char → Bool} {a : Char} (h : p a = false)
    (u v : Str) : (u ++ a :: v).dropWhile p = u.dropWhile p ++ a :: v := by
  induction u with
  | nil => simp [List.dropWhile_cons, h]
  | cons c t ih =>
    by_cases hc : p c = true <;>
      simp [List.dropWhile_cons, hc, ih]

theorem takeWhile_append_cons {p : Char → Bool} {a : Char} (h : p a = false)
    (u v : Str) (hu : ∀ x ∈ u, p x = true) :
    (u ++ a :: v).takeWhile p = u ∧ (u ++ a :: v).dropWhile p = a :: v := by
  induction u with
  | nil => simp [List.takeWhile_cons, List.dropWhile_cons, h]
  | cons c t ih =>
    have hc : p c = true := hu c (by simp)
    have ih' := ih fun x hx => hu x (by simp [hx])
    simp [List.takeWhile_cons, List.dropWhile_cons, hc, ih'.1, ih'.2]

theorem dropWhile_idem {p : Char → Bool} : ∀ l : Str,
    (l.dropWhile p).dropWhile p = l.dropWhile p := by
  intro l
  induction l with
  | nil => rfl
  | cons c t ih =>
    by_cases hc : p c = true <;>
      simp [List.dropWhile_cons, hc, ih]

theorem dropWhile_eq_nil_of_all {p : Char → Bool} : ∀ l : Str,
    (∀ x ∈ l, p x = true) → l.dropWhile p = [] := by
  intro l
  induction l with
  | nil => intro _; rfl
  | cons c t ih =>
    intro h
    simp [List.dropWhile_cons, h c (by simp), ih fun x hx => h x (by simp [hx])]

theorem mem_dropWhile {p : Char → Bool} {x : Char} : ∀ {l : Str},
    x ∈ l.dropWhile p → x ∈ l := by
  intro l
  induction l with
  | nil => intro h; exact h
  | cons c t ih =>
    intro h
    rw [List.dropWhile_cons] at h
    split at h
    · exact List.mem_cons_of_mem c (ih h)
    · exact h

theorem mem_rstripWS {x : Char} {l : Str} (h : x ∈ rstripWS l) : x ∈ l := by
  unfold rstripWS at h
  rw [List.mem_reverse] at h
  exact (List.mem_reverse).mp (mem_dropWhile h)

theorem rstripWS_append_cons (u b : Str) (c : Char) (hc : c.isWhitespace = false) :
    rstripWS (u ++ c :: b) = u ++ c :: rstripWS b := by
  unfold rstripWS
  rw [List.reverse_append, List.reverse_cons, List.append_assoc, List.singleton_append]
  rw [dropWhile_append_cons hc]
  simp

theorem rstripWS_idem (l : Str) : rstripWS (rstripWS l) = rstripWS l := by
  unfold rstripWS
  rw [List.reverse_reverse, dropWhile_idem]

theorem pyStrip_rstripWS (l : Str) : pyStrip (rstripWS l) = pyStrip l := by
  unfold pyStrip
  rw [rstripWS_idem]

theorem pyInt_rstripWS (l : Str) : pyInt (rstripWS l) = pyInt l := by
  unfold pyInt
  rw [pyStrip_rstripWS]

theorem pySplit_of_no_sep (sep : Char) : ∀ xs : Str,
    (∀ c ∈ xs, c ≠ sep) → pySplit sep xs = [xs] := by
  intro xs
  induction xs with
  | nil => intro _; rfl
  | cons c t ih =>
    intro h
    have hc : ¬(c = sep) := h c (by simp)
    rw [pySplit, if_neg hc, ih fun x hx => h x (by simp [hx])]

theorem parseMacroPart_hold_nocolon (b : Str) (hb : ∀ c ∈ b, c ≠ ':') :
    parseMacroPart ("hold:".toList ++ b) = [MacroStep.key (pyStrip b)] := by
  have hstrip : pyStrip ("hold:".toList ++ b) = "hold:".toList ++ rstripWS b := by
    unfold pyStrip
    rw [show ("hold:".toList ++ b) = ['h','o','l','d'] ++ ':' :: b from rfl]
    rw [rstripWS_append_cons _ _ _ (by decide)]
    rfl
  unfold parseMacroPart
  rw [hstrip]
  rw [if_neg (by simp), if_neg (by simp [List.isPrefixOf]), if_pos (by simp [List.isPrefixOf])]
  have hdrop : ("hold:".toList ++ rstripWS b).drop 5 = rstripWS b := rfl
  rw [hdrop]
  have hnone : rsplitColon (rstripWS b) = none := by
    unfold rsplitColon
    rw [dropWhile_eq_nil_of_all _ ?_]
    intro x hx
    exact decide_eq_true (hb x (mem_rstripWS ((List.mem_reverse).mp hx)))
  simp only [hnone, pyStrip_rstripWS]

theorem parseMacroPart_hold_badms (b d : Str) (hd : ∀ c ∈ d, c ≠ ':')
    (hint : pyInt d = none) :
    parseMacroPart ("hold:".toList ++ b ++ ':' :: d) = [] := by
  have hstrip : pyStrip ("hold:".toList ++ b ++ ':' :: d) =
      "hold:".toList ++ b ++ ':' :: rstripWS d := by
    unfold pyStrip
    rw [show ("hold:".toList ++ b ++ ':' :: d) = ("hold:".toList ++ b) ++ ':' :: d by
      simp [List.append_assoc]]
    rw [rstripWS_append_cons _ _ _ (by decide)]
    rw [show (("hold:".toList ++ b) ++ ':' :: rstripWS d)
        = 'h' :: ('o' :: 'l' :: 'd' :: ':' :: (b ++ ':' :: rstripWS d)) by simp]
    rfl
  unfold parseMacroPart
  rw [hstrip]
  rw [if_neg (by simp), if_neg (by simp [List.isPrefixOf]), if_pos (by simp [List.isPrefixOf])]
  have hdrop : ("hold:".toList ++ b ++ ':' :: rstripWS d).drop 5 = b ++ ':' :: rstripWS d := rfl
  rw [hdrop]
  have hsplit : rsplitColon (b ++ ':' :: rstripWS d) = some (b, rstripWS d) := by
    unfold rsplitColon
    rw [List.reverse_append, List.reverse_cons, List.append_assoc, List.singleton_append]
    have hall : ∀ x ∈ (rstripWS d).reverse, (fun c => decide (c ≠ ':')) x = true := by
      intro x hx
      exact decide_eq_true (hd x (mem_rstripWS ((List.mem_reverse).mp hx)))
    obtain ⟨htake, hdrop2⟩ := takeWhile_append_cons (p := fun c => decide (c ≠ ':'))
      (a := ':') (by decide) (rstripWS d).reverse b.reverse hall
    simp only [htake, hdrop2]
    simp
  simp only [hsplit, pyInt_rstripWS, hint]


/-- Claim C10: a macro step `hold:<binding>` whose binding contains no colon
(no duration field) parses to a press-and-release `key` step on the
stripped binding instead of being dropped; a hold step whose duration
field is present but not numeric is silently dropped. -/
theorem c10_hold_without_duration :
    (∀ b : Str, (∀ c ∈ b, c ≠ ':') → (∀ c ∈ b, c ≠ ';') →
      parseMacro ("hold:".toList ++ b) = [MacroStep.key (pyStrip b)]) ∧
    (∀ b d : Str, (∀ c ∈ d, c ≠ ':') → (∀ c ∈ b, c ≠ ';') → (∀ c ∈ d, c ≠ ';') →
      pyInt d = none →
      parseMacro ("hold:".toList ++ b ++ ':' :: d) = []) := by
  have hX : ¬ (';' ∈ "hold:".toList) := by decide
  constructor
  · intro b hb hbs
    have hsp : pySplit ';' ("hold:".toList ++ b) = ["hold:".toList ++ b] := by
      refine pySplit_of_no_sep ';' _ ?_
      intro c hc
      rcases List.mem_append.mp hc with h | h
      · intro heq
        subst heq
        exact hX h
      · exact hbs c h
    unfold parseMacro
    rw [hsp]
    rw [show (List.map parseMacroPart ["hold:".toList ++ b]).flatten
        = parseMacroPart ("hold:".toList ++ b) ++ [] from rfl]
    rw [parseMacroPart_hold_nocolon b hb, List.append_nil]
  · intro b d hd hbs hds hint
    have hsp : pySplit ';' ("hold:".toList ++ b ++ ':' :: d)
        = ["hold:".toList ++ b ++ ':' :: d] := by
      refine pySplit_of_no_sep ';' _ ?_
      intro c hc
      rcases List.mem_append.mp hc with h | h
      · rcases List.mem_append.mp h with h2 | h2
        · intro heq
          subst heq
          exact hX h2
        · exact hbs c h2
      · rcases List.mem_cons.mp h with h3 | h3
        · subst h3
          decide
        · exact hds c h3
    unfold parseMacro
    rw [hsp]
    rw [show (List.map parseMacroPart ["hold:".toList ++ b ++ ':' :: d]).flatten
        = parseMacroPart ("hold:".toList ++ b ++ ':' :: d) ++ [] from rfl]
    rw [parseMacroPart_hold_badms b d hd hint, List.nil_append]

/-- Witness for C10: `hold:w` parses to a key step; `hold:w:xy` is
dropped. -/
theorem c10_witness :
    ((∀ c ∈ (['w'] : Str), c ≠ ':') ∧ (∀ c ∈ (['w'] : Str), c ≠ ';') ∧
      pyInt ['x', 'y'] = none) ∧
    parseMacro ("hold:".toList ++ ['w']) = [MacroStep.key (pyStrip ['w'])] ∧
    parseMacro ("hold:".toList ++ ['w'] ++ ':' :: ['x', 'y']) = [] :=
  ⟨⟨by decide, by decide, by decide⟩,
   c10_hold_without_duration.1 ['w'] (by decide) (by decide),
   c10_hold_without_duration.2 ['w'] ['x', 'y'] (by decide) (by decide) (by decide) (by decide)⟩

end FaceCommand

